import Mathlib

/-!
Verification of the resource-descriptor recovery and instruction-patching pass
(`ResourceTrackingPass` and its helpers) of the shadPS4 shader recompiler,
shallowly embedded from `src/shader_recompiler/runtime_info.h`.

The embedding models:
* the IR instruction arena (instructions addressed by index, operands either
  immediates, scalar-register attributes, or references into the arena);
* the descriptor registry (`Descriptors::Add` for buffer, image and sampler
  resources, including the find-or-append scan, the stride/record assertion
  and the monotonic flag widening);
* `TrackSharp`, `TryDisableAnisoLod0`, `TryHandleInlineCbuf`,
  `PatchBufferInstruction`, `PatchImageInstruction` and the driving
  `ResourceTrackingPass` loop.

Machine integers are modelled as `Nat` with explicit `% 2^32` / `% 2^64`
where the C++ performs wrapping arithmetic.  Assertion failures
(`ASSERT`, `ASSERT_MSG`, `UNREACHABLE`) are modelled as `Option.none`.
Unboundedly recursive graph walks (the Phi-unwrap loop of `TrackSharp` and
the backward BFS of `PatchImageInstruction`, which the C++ source performs
without a visited set) are modelled with an explicit fuel parameter; fuel
exhaustion is distinguishable from an assertion failure where a claim
depends on it.

External collaborators that are not part of the analysed source (the
AMDGPU descriptor bit-layout decoders from `video_core/amdgpu/resource.h`,
and the user-data / guest-memory environment read through `Info::ReadUd`)
are modelled as explicit function-valued parameters, as the specification
describes them only at their interface.
-/

namespace ShadPS4

/-- 2^32, the modulus of u32 arithmetic. -/
def M32 : Nat := 4294967296

/-- 2^64, the modulus of u64 arithmetic. -/
def M64 : Nat := 18446744073709551616

/-- IR opcodes referenced by the pass (`IR::Opcode`).  `Other` stands for
any opcode the pass does not inspect. -/
inductive Opcode where
  | Phi | GetUserData | ReadConst
  | IAdd32 | IMul32 | ShiftRightLogical32
  | CompositeConstructU32x2 | CompositeConstruct2 | CompositeConstruct3
  | CompositeExtract | FPSub32
  | SelectU32 | IEqual | BitFieldUExtract | BitwiseAnd32
  | LoadBufferF32 | LoadBufferF32x2 | LoadBufferF32x3 | LoadBufferF32x4
  | LoadBufferU32 | ReadConstBuffer | ReadConstBufferU32
  | StoreBufferF32 | StoreBufferF32x2 | StoreBufferF32x3 | StoreBufferF32x4
  | StoreBufferU32
  | ImageSampleExplicitLod | ImageSampleImplicitLod
  | ImageSampleDrefExplicitLod | ImageSampleDrefImplicitLod
  | ImageFetch | ImageGather | ImageGatherDref
  | ImageQueryDimensions | ImageQueryLod | ImageGradient
  | ImageRead | ImageWrite
  | ImageAtomicIAdd32 | ImageAtomicSMin32 | ImageAtomicUMin32
  | ImageAtomicSMax32 | ImageAtomicUMax32 | ImageAtomicInc32
  | ImageAtomicDec32 | ImageAtomicAnd32 | ImageAtomicOr32
  | ImageAtomicXor32 | ImageAtomicExchange32
  | BitCastU32F32
  | Other
deriving DecidableEq, Repr, Inhabited

/-- An operand value (`IR::Value`): an immediate, a scalar-register
attribute, or a reference to a producing instruction in the arena.
`unit` stands for an absent / void operand. -/
inductive Arg where
  | imm (v : Nat)
  | sreg (r : Nat)
  | ref (i : Nat)
  | unit
deriving DecidableEq, Repr, Inhabited

/-- `IR::Value::IsImmediate` as used by the pass's pattern checks. -/
def Arg.isImm : Arg → Bool
  | .imm _ => true
  | _ => false

/-- `IR::Value::U32()` / `U64()`: read the immediate payload.  The C++
asserts the value is an immediate; call sites in the pass that invoke it
unguarded are modelled with a default of 0. -/
def Arg.immVal : Arg → Nat
  | .imm v => v
  | _ => 0

/-- `IR::Value::ScalarReg()`: read the scalar-register payload. -/
def Arg.scalarReg : Arg → Nat
  | .sreg r => r
  | _ => 0

/-- `AmdGpu::NumberFormat` (values referenced by the pass). -/
inductive NumberFormat where
  | Unorm | Snorm | Uscaled | Sscaled | Uint | Sint | SnormNz | Float | OtherNumberFormat
deriving DecidableEq, Repr, Inhabited

/-- `AmdGpu::DataFormat` (values referenced by the pass). -/
inductive DataFormat where
  | Format32 | Format32_32 | Format32_32_32 | Format32_32_32_32 | OtherDataFormat
deriving DecidableEq, Repr, Inhabited

/-- `AmdGpu::ImageType`: the dimensionality cases handled by the image
patcher's coordinate switch. -/
inductive ImageType where
  | Color1D | Color1DArray | Color2D | Color2DArray | Color2DMsaa
  | Color3D | Cube | OtherImageType
deriving DecidableEq, Repr, Inhabited

/-- `IR::BufferInstInfo` (the flag bits of a buffer instruction).  The
packed bit layout lives in an external header; the pass reads it only
through these named fields. -/
structure BufferInstInfo where
  index_enable : Bool := false
  offset_enable : Bool := false
  inst_offset : Nat := 0
  is_typed : Bool := false
  nfmt : NumberFormat := .Unorm
  dmft : DataFormat := .OtherDataFormat
deriving DecidableEq, Repr, Inhabited

/-- `IR::TextureInstInfo` (the flag bits of an image instruction). -/
structure TextureInstInfo where
  is_depth : Bool := false
  has_offset : Bool := false
  has_lod_clamp : Bool := false
  explicit_lod : Bool := false
deriving DecidableEq, Repr, Inhabited

/-- An IR instruction: opcode, ordered operands, and the two flag views
the pass reads through `Inst::Flags<T>()`. -/
structure Inst where
  opcode : Opcode := .Other
  args : List Arg := []
  binfo : BufferInstInfo := {}
  tinfo : TextureInstInfo := {}
deriving DecidableEq, Repr, Inhabited

/-- `Inst::Arg(i)`. -/
def Inst.arg (i : Inst) (n : Nat) : Arg := i.args.getD n .unit

/-- The instruction arena: instructions addressed by stable index.
Operand edges (`Arg.ref`) are indices into this arena. -/
abbrev Arena := List Inst

/-- `Value::InstRecursive()`: dereference an operand edge. -/
def argInst (g : Arena) (a : Arg) : Inst :=
  match a with
  | .ref i => g.getD i default
  | _ => default

/-- `Value::TryInstRecursive()`: dereference if the operand is an
instruction reference. -/
def tryArgInst (g : Arena) (a : Arg) : Option Inst :=
  match a with
  | .ref i => some (g.getD i default)
  | _ => none

/-- `Inst::SetArg(pos, v)` on the instruction at arena index `i`. -/
def setArg (g : Arena) (i : Nat) (pos : Nat) (v : Arg) : Arena :=
  match g.getD i default with
  | inst => g.set i { inst with args := inst.args.set pos v }

/-- Append a freshly emitted instruction (an `IREmitter` call) to the
arena; returns the new arena and a reference to the new instruction. -/
def emit (g : Arena) (op : Opcode) (as : List Arg) : Arena × Arg :=
  (g ++ [{ opcode := op, args := as }], .ref g.length)

/-- `AmdGpu::Buffer`: the raw 128-bit buffer descriptor (V#), as two
64-bit halves exactly as `TryHandleInlineCbuf` assembles it
(`std::array<u64, 2>`). -/
structure Buffer where
  lo : Nat := 0
  hi : Nat := 0
deriving DecidableEq, Repr, Inhabited

/-- `AmdGpu::Image`, as the pass consumes it: the decoded dimensionality
and number format (`GetType()` / `GetNumberFmt()`); the 256-bit raw
layout is decoded by an external collaborator. -/
structure Image where
  ty : ImageType := .OtherImageType
  nfmt : NumberFormat := .Unorm
deriving DecidableEq, Repr, Inhabited

/-- The external fixed-layout buffer-descriptor decoder
(`AmdGpu::Buffer`'s accessors, defined in `video_core/amdgpu/resource.h`,
outside the analysed source): stride, record count, byte size and the
swizzle / thread-id addressing bits of a raw descriptor. -/
structure BufDecoder where
  getStride : Buffer → Nat
  getStrideElements : Buffer → Nat → Nat
  numRecords : Buffer → Nat
  getSize : Buffer → Nat
  swizzleEnable : Buffer → Bool
  addTidEnable : Buffer → Bool

/-- The external user-data / guest-memory environment behind
`Info::ReadUd<T>`: reading a raw buffer or decoded image descriptor at a
sharp location (sgpr base, dword offset). -/
structure MemEnv where
  readBuffer : Nat → Nat → Buffer
  readImage : Nat → Nat → Image

/-- The per-stage `Info` data consumed by the pass (its data fields;
the memory environment is the separate `MemEnv`). -/
structure Info where
  pgm_base : Nat := 0
deriving DecidableEq, Repr, Inhabited

/-- `IR::Type` is a bitset of element types; the pass uses the `F32` and
`U32` bits.  The exact bit values live in an external header; two
distinct single bits model them. -/
def tyF32 : Nat := 1
/-- The `IR::Type::U32` bit. -/
def tyU32 : Nat := 2

/-- `u32(IR::ScalarReg::Max)`, the sentinel sgpr base marking a
descriptor held directly in a user-data register. -/
def scalarRegMax : Nat := 104

/-- A buffer binding record (`BufferResource`). -/
structure BufferResource where
  sgpr_base : Nat := 0
  dword_offset : Nat := 0
  stride : Nat := 0
  num_records : Nat := 0
  used_types : Nat := 0
  inline_cbuf : Buffer := {}
  is_storage : Bool := false
deriving DecidableEq, Repr, Inhabited

/-- An image binding record (`ImageResource`). -/
structure ImageResource where
  sgpr_base : Nat := 0
  dword_offset : Nat := 0
  ty : ImageType := .OtherImageType
  nfmt : NumberFormat := .Unorm
  is_storage : Bool := false
  is_depth : Bool := false
deriving DecidableEq, Repr, Inhabited

/-- A sampler binding record (`SamplerResource`); `associated_image` is a
4-bit field, `disable_aniso` a 1-bit field. -/
structure SamplerResource where
  sgpr_base : Nat := 0
  dword_offset : Nat := 0
  associated_image : Nat := 0
  disable_aniso : Bool := false
deriving DecidableEq, Repr, Inhabited

/-- The three per-stage resource lists the registry populates. -/
structure DescState where
  buffers : List BufferResource := []
  images : List ImageResource := []
  samplers : List SamplerResource := []
deriving DecidableEq, Repr, Inhabited

/-- `std::ranges::find_if` over a list: index of the first element
satisfying the predicate. -/
def firstIdx? (p : α → Bool) : List α → Option Nat
  | [] => none
  | a :: l => if p a then some 0 else (firstIdx? p l).map (· + 1)

/-- The generic find-or-append scan of `Descriptors::Add` followed by the
kind-specific post-processing of the entry at the returned index
(`merge existing candidate`, which models the stride/record `ASSERT` as
`none` and performs the monotonic flag widening). -/
def addG (key : α → κ) [DecidableEq κ] (merge : α → α → Option α)
    (L : List α) (d : α) : Option (Nat × List α) :=
  let found := firstIdx? (fun e => decide (key e = key d)) L
  let i := found.getD L.length
  let L₁ := match found with
    | some _ => L
    | none => L ++ [d]
  match merge (L₁.getD i d) d with
  | some e' => some (i, L₁.set i e')
  | none => none

/-- Identity key of a buffer binding: the fields compared by
`Descriptors::Add(BufferResource)`. -/
def bufKey (d : BufferResource) : Nat × Nat × Buffer :=
  (d.sgpr_base, d.dword_offset, d.inline_cbuf)

/-- The buffer-specific post-processing of `Descriptors::Add`:
`ASSERT(stride and num_records agree)` then widen `is_storage` and
`used_types`. -/
def bufMerge (e d : BufferResource) : Option BufferResource :=
  if e.stride = d.stride ∧ e.num_records = d.num_records then
    some { e with is_storage := e.is_storage || d.is_storage,
                  used_types := e.used_types ||| d.used_types }
  else none

/-- Identity key of an image binding: the fields compared by
`Descriptors::Add(ImageResource)`. -/
def imgKey (d : ImageResource) : Nat × Nat × ImageType × Bool :=
  (d.sgpr_base, d.dword_offset, d.ty, d.is_storage)

/-- Identity key of a sampler binding: the fields compared by
`Descriptors::Add(SamplerResource)`. -/
def smpKey (d : SamplerResource) : Nat × Nat :=
  (d.sgpr_base, d.dword_offset)

/-- `Descriptors::Add(const BufferResource&)`. -/
def addBufferL (L : List BufferResource) (d : BufferResource) :
    Option (Nat × List BufferResource) :=
  addG bufKey bufMerge L d

/-- `Descriptors::Add(const ImageResource&)`. -/
def addImageL (L : List ImageResource) (d : ImageResource) :
    Option (Nat × List ImageResource) :=
  addG imgKey (fun e _ => some e) L d

/-- `Descriptors::Add(const SamplerResource&)`. -/
def addSamplerL (L : List SamplerResource) (d : SamplerResource) :
    Option (Nat × List SamplerResource) :=
  addG smpKey (fun e _ => some e) L d

/-- A sequence of `Add` calls of one resource kind within a pass run,
returning the binding index of each call and the final list. -/
def runAddsG (key : α → κ) [DecidableEq κ] (merge : α → α → Option α) :
    List α → List α → Option (List Nat × List α)
  | L, [] => some ([], L)
  | L, d :: ds =>
    (addG key merge L d).bind (fun r =>
      (runAddsG key merge r.2 ds).bind (fun q => some (r.1 :: q.1, q.2)))

/-- All buffer registrations of one pass run, from an initial list. -/
def runBufferAdds (L : List BufferResource) (ds : List BufferResource) :
    Option (List Nat × List BufferResource) :=
  runAddsG bufKey bufMerge L ds

/-- All image registrations of one pass run, from an initial list. -/
def runImageAdds (L : List ImageResource) (ds : List ImageResource) :
    Option (List Nat × List ImageResource) :=
  runAddsG imgKey (fun e _ => some e) L ds

/-- All sampler registrations of one pass run, from an initial list. -/
def runSamplerAdds (L : List SamplerResource) (ds : List SamplerResource) :
    Option (List Nat × List SamplerResource) :=
  runAddsG smpKey (fun e _ => some e) L ds

/-- The first index satisfying a key-equality test. -/
def keyIdx? [DecidableEq κ] (k : κ) (m : List κ) : Option Nat :=
  firstIdx? (fun x => decide (x = k)) m

/-- The descriptors among `ds` whose identity matches key `kk`. -/
def bufMatched (kk : Nat × Nat × Buffer) (ds : List BufferResource) :
    List BufferResource :=
  ds.filter (fun d => decide (bufKey d = kk))

/-- Invariant relating the buffer list to the descriptors processed so
far: identity keys are pairwise distinct, every processed descriptor has
an entry, and every entry's `is_storage` / `used_types` are exactly the
disjunction / union over the processed descriptors with its identity. -/
def InvB (done : List BufferResource) (L : List BufferResource) : Prop :=
  (L.map bufKey).Nodup ∧
  (∀ d ∈ done, bufKey d ∈ L.map bufKey) ∧
  (∀ j, j < L.length →
    ((L.getD j default).is_storage =
       (bufMatched (bufKey (L.getD j default)) done).any (fun d => d.is_storage)) ∧
    ((L.getD j default).used_types =
       (bufMatched (bufKey (L.getD j default)) done).foldl
         (fun a d => a ||| d.used_types) 0))

/-- `IsBufferInstruction`. -/
def isBufferInstruction (i : Inst) : Bool :=
  match i.opcode with
  | .LoadBufferF32 | .LoadBufferF32x2 | .LoadBufferF32x3 | .LoadBufferF32x4
  | .LoadBufferU32 | .ReadConstBuffer | .ReadConstBufferU32
  | .StoreBufferF32 | .StoreBufferF32x2 | .StoreBufferF32x3 | .StoreBufferF32x4
  | .StoreBufferU32 => true
  | _ => false

/-- `BufferDataType`; the `default:` branch is `UNREACHABLE()` in the C++
and is modelled as the empty type bitset. -/
def bufferDataType (i : Inst) : Nat :=
  match i.opcode with
  | .LoadBufferF32 | .LoadBufferF32x2 | .LoadBufferF32x3 | .LoadBufferF32x4
  | .ReadConstBuffer
  | .StoreBufferF32 | .StoreBufferF32x2 | .StoreBufferF32x3 | .StoreBufferF32x4 => tyF32
  | .LoadBufferU32 | .ReadConstBufferU32 | .StoreBufferU32 => tyU32
  | _ => 0

/-- `IsBufferStore`. -/
def isBufferStore (i : Inst) : Bool :=
  match i.opcode with
  | .StoreBufferF32 | .StoreBufferF32x2 | .StoreBufferF32x3 | .StoreBufferF32x4
  | .StoreBufferU32 => true
  | _ => false

/-- `IsImageInstruction`. -/
def isImageInstruction (i : Inst) : Bool :=
  match i.opcode with
  | .ImageSampleExplicitLod | .ImageSampleImplicitLod
  | .ImageSampleDrefExplicitLod | .ImageSampleDrefImplicitLod
  | .ImageFetch | .ImageGather | .ImageGatherDref
  | .ImageQueryDimensions | .ImageQueryLod | .ImageGradient
  | .ImageRead | .ImageWrite
  | .ImageAtomicIAdd32 | .ImageAtomicSMin32 | .ImageAtomicUMin32
  | .ImageAtomicSMax32 | .ImageAtomicUMax32 | .ImageAtomicInc32
  | .ImageAtomicDec32 | .ImageAtomicAnd32 | .ImageAtomicOr32
  | .ImageAtomicXor32 | .ImageAtomicExchange32 => true
  | _ => false

/-- `IsImageStorageInstruction`. -/
def isImageStorageInstruction (i : Inst) : Bool :=
  match i.opcode with
  | .ImageWrite | .ImageRead
  | .ImageAtomicIAdd32 | .ImageAtomicSMin32 | .ImageAtomicUMin32
  | .ImageAtomicSMax32 | .ImageAtomicUMax32 | .ImageAtomicInc32
  | .ImageAtomicDec32 | .ImageAtomicAnd32 | .ImageAtomicOr32
  | .ImageAtomicXor32 | .ImageAtomicExchange32 => true
  | _ => false

/-- `SharpLocation`. -/
structure SharpLocation where
  sgpr_base : Nat
  dword_offset : Nat
deriving DecidableEq, Repr, Inhabited

/-- The `while (inst->GetOpcode() == Phi) inst = inst->Arg(0).InstRecursive();`
loop at the head of `TrackSharp`.  The C++ performs it with no visited set
and no bound; the model bounds it by fuel (`none` = the loop is still
running when the fuel runs out, or a dereference of a non-instruction
operand). -/
def phiUnwrap (g : Arena) : Nat → Inst → Option Inst
  | 0, inst => if inst.opcode = .Phi then none else some inst
  | fuel + 1, inst =>
    if inst.opcode = .Phi then phiUnwrap g fuel (argInst g (inst.arg 0))
    else some inst

/-- The `while (sbase->GetOpcode() == Phi) sbase = sbase->Arg(0).TryInstRecursive();`
loops of `TrackSharp`; a null `TryInstRecursive` result makes the next
loop-condition check dereference null, modelled as failure. -/
def phiUnwrapT (g : Arena) : Nat → Inst → Option Inst
  | 0, inst => if inst.opcode = .Phi then none else some inst
  | fuel + 1, inst =>
    if inst.opcode = .Phi then
      match tryArgInst g (inst.arg 0) with
      | none => none
      | some i => phiUnwrapT g fuel i
    else some inst

/-- `TrackSharp`: resolve the descriptor-producing instruction to a
`SharpLocation`.  `ASSERT_MSG` failures are `none`. -/
def trackSharp (g : Arena) (fuel : Nat) (inst0 : Inst) : Option SharpLocation :=
  match phiUnwrap g fuel inst0 with
  | none => none
  | some inst =>
    if inst.opcode = .GetUserData then
      some ⟨scalarRegMax, (inst.arg 0).scalarReg⟩
    else if inst.opcode = .ReadConst then
      -- dword_offset = inst->Arg(1).U32()
      match inst.arg 1 with
      | .imm dword_offset =>
        let spgpr_base := argInst g (inst.arg 0)
        match phiUnwrapT g fuel (argInst g (spgpr_base.arg 0)) with
        | none => none
        | some sbase0 =>
          match phiUnwrapT g fuel (argInst g (spgpr_base.arg 1)) with
          | none => none
          | some sbase1 =>
            if sbase0.opcode = .GetUserData ∧ sbase1.opcode = .GetUserData then
              some ⟨(sbase0.arg 0).scalarReg, dword_offset⟩
            else none
      | _ => none
    else none

/-- `TryDisableAnisoLod0`: recognize the four-instruction
anisotropy-disable idiom.  The two unguarded `U32()` reads of the C++
(on possibly non-immediate operands) are modelled by `Arg.immVal`. -/
def tryDisableAnisoLod0 (g : Arena) (inst : Inst) : Inst × Bool :=
  let notFound := (inst, false)
  if ¬(inst.opcode = .SelectU32) then notFound
  else
    let prod0 := argInst g (inst.arg 0)
    if ¬(prod0.opcode = .IEqual ∧ (prod0.arg 1).isImm = true ∧
         (prod0.arg 1).immVal = 0) then notFound
    else
      let prod0arg0 := argInst g (prod0.arg 0)
      if ¬(prod0arg0.opcode = .BitFieldUExtract ∧
           ((argInst g (prod0arg0.arg 1)).arg 0).immVal = 0x0008000c) then notFound
      else
        let prod1 := argInst g (inst.arg 1)
        if ¬(prod1.opcode = .BitwiseAnd32 ∧ (prod1.arg 1).immVal = 0xfffff1ff) then
          notFound
        else
          let prod2 := argInst g (inst.arg 2)
          if prod2.opcode = .GetUserData ∨ prod2.opcode = .ReadConst then (prod2, true)
          else notFound

/-- `MaxUboSize`. -/
def maxUboSize : Nat := 65536

/-- The handle-construction shape `TryHandleInlineCbuf` recognizes: the
conjunction of all its early-return guards. -/
def matchesInlineShape (g : Arena) (inst : Inst) : Bool :=
  let handle := argInst g (inst.arg 0)
  let p0 := argInst g (handle.arg 0)
  let p1 := argInst g (handle.arg 1)
  decide (p0.opcode = .IAdd32) && (p0.arg 0).isImm && (p0.arg 1).isImm &&
  decide (p1.opcode = .IAdd32) && (handle.arg 3).isImm && (handle.arg 2).isImm

/-- `TryHandleInlineCbuf`.  Result: `some (none, s)` = the shape does not
match and `-1` is returned with the registry state unchanged;
`some (some (binding, cbuf), s')` = the sharp was synthesized and
registered; `none` = the registration's `ASSERT` failed.  The function
never modifies the instruction's operands. -/
def tryHandleInlineCbuf (g : Arena) (inst : Inst) (info : Info) (_env : MemEnv)
    (dec : BufDecoder) (s : DescState) : Option (Option (Nat × Buffer) × DescState) :=
  let handle := argInst g (inst.arg 0)
  let p0 := argInst g (handle.arg 0)
  if ¬(p0.opcode = .IAdd32 ∧ (p0.arg 0).isImm = true ∧ (p0.arg 1).isImm = true) then
    some (none, s)
  else
    let p1 := argInst g (handle.arg 1)
    if ¬(p1.opcode = .IAdd32) then some (none, s)
    else if ¬((handle.arg 3).isImm = true ∧ (handle.arg 2).isImm = true) then
      some (none, s)
    else
      -- buffer[0] = info.pgm_base + p0->Arg(0).U32() + p0->Arg(1).U32()  (u64)
      -- buffer[1] = handle->Arg(2).U32() | handle->Arg(3).U64() << 32    (u64)
      let b0 := (info.pgm_base + (p0.arg 0).immVal + (p0.arg 1).immVal) % M64
      let b1 := ((handle.arg 2).immVal ||| ((handle.arg 3).immVal <<< 32)) % M64
      let cbuf : Buffer := { lo := b0, hi := b1 }
      match addBufferL s.buffers
          { sgpr_base := 4294967295, dword_offset := 0,
            stride := dec.getStride cbuf, num_records := dec.numRecords cbuf,
            used_types := bufferDataType inst, inline_cbuf := cbuf,
            is_storage := isBufferStore inst || decide (dec.getSize cbuf > maxUboSize) } with
      | none => none
      | some (i, L) => some (some (i, cbuf), { s with buffers := L })

/-- The address-computation tail of `PatchBufferInstruction` (the
`IREmitter` calls after the two `ReadConstBuffer` opcodes have been
excluded): emit the dword-granular linear address expression and return
the new arena together with the operand that `SetArg(1, address)`
receives. -/
def emitBufferAddress (g : Arena) (bi : BufferInstInfo) (dword_stride : Nat)
    (arg1 : Arg) : Arena × Arg :=
  let address : Arg := .imm (bi.inst_offset / 4)
  if bi.index_enable && bi.offset_enable then
    let (g, offset) := emit g .CompositeExtract [arg1, .imm 1]
    let (g, index) := emit g .CompositeExtract [arg1, .imm 0]
    let (g, mulr) := emit g .IMul32 [index, .imm dword_stride]
    let (g, addr1) := emit g .IAdd32 [mulr, address]
    let (g, shr) := emit g .ShiftRightLogical32 [offset, .imm 2]
    let (g, addr2) := emit g .IAdd32 [addr1, shr]
    (g, addr2)
  else if bi.index_enable then
    let (g, mulr) := emit g .IMul32 [arg1, .imm dword_stride]
    let (g, addr1) := emit g .IAdd32 [mulr, address]
    (g, addr1)
  else
    -- offset_enable (the dynamic offset operand is bound but unused in
    -- the C++) or neither: the address stays the constant base offset.
    (g, address)

/-- u32 evaluation of an emitted address operand.  `a1` is the
instruction's original second operand; `idxV`/`offV` give the u32 values
of its two composite components, `dirV` its own u32 value when it is used
directly. -/
def evalU32 (g : Arena) (a1 : Arg) (idxV offV dirV : Nat) : Nat → Arg → Option Nat
  | _, .imm v => some (v % M32)
  | 0, _ => none
  | fuel + 1, a =>
    if a = a1 then some (dirV % M32)
    else
      match a with
      | .ref j =>
        let i := g.getD j default
        match i.opcode, i.args with
        | .IAdd32, [x, y] =>
          match evalU32 g a1 idxV offV dirV fuel x, evalU32 g a1 idxV offV dirV fuel y with
          | some xv, some yv => some ((xv + yv) % M32)
          | _, _ => none
        | .IMul32, [x, y] =>
          match evalU32 g a1 idxV offV dirV fuel x, evalU32 g a1 idxV offV dirV fuel y with
          | some xv, some yv => some ((xv * yv) % M32)
          | _, _ => none
        | .ShiftRightLogical32, [x, y] =>
          match evalU32 g a1 idxV offV dirV fuel x, evalU32 g a1 idxV offV dirV fuel y with
          | some xv, some yv => some ((xv >>> (yv % 32)) % M32)
          | _, _ => none
        | .CompositeExtract, [x, y] =>
          if x = a1 then
            if y = .imm 0 then some (idxV % M32)
            else if y = .imm 1 then some (offV % M32)
            else none
          else none
        | _, _ => none
      | _ => none

/-- `PatchBufferInstruction` on the instruction at arena index `idx`. -/
def patchBufferInstruction (fuel : Nat) (env : MemEnv) (dec : BufDecoder)
    (info : Info) (g : Arena) (idx : Nat) (s : DescState) :
    Option (Arena × DescState) :=
  let inst := g.getD idx default
  let resolved : Option (Nat × Buffer × DescState) :=
    match tryHandleInlineCbuf g inst info env dec s with
    | none => none
    | some (some (b, cbuf), s') => some (b, cbuf, s')
    | some (none, s') =>
      let handle := argInst g (inst.arg 0)
      let producer := argInst g (handle.arg 0)
      match trackSharp g fuel producer with
      | none => none
      | some sharp =>
        let buffer := env.readBuffer sharp.sgpr_base sharp.dword_offset
        match addBufferL s'.buffers
            { sgpr_base := sharp.sgpr_base, dword_offset := sharp.dword_offset,
              stride := dec.getStride buffer, num_records := dec.numRecords buffer,
              used_types := bufferDataType inst,
              is_storage := isBufferStore inst ||
                decide (dec.getSize buffer > maxUboSize) } with
        | none => none
        | some (b, L) => some (b, buffer, { s' with buffers := L })
  match resolved with
  | none => none
  | some (binding, buffer, s) =>
    let g := setArg g idx 0 (.imm binding)
    -- ASSERT(!buffer.swizzle_enable && !buffer.add_tid_enable)
    if dec.swizzleEnable buffer || dec.addTidEnable buffer then none
    else if inst.binfo.is_typed &&
        !(decide (inst.binfo.nfmt = .Float) &&
          (decide (inst.binfo.dmft = .Format32_32_32_32) ||
           decide (inst.binfo.dmft = .Format32_32_32) ||
           decide (inst.binfo.dmft = .Format32_32) ||
           decide (inst.binfo.dmft = .Format32))) then none
    else if inst.opcode = .ReadConstBuffer ∨ inst.opcode = .ReadConstBufferU32 then
      some (g, s)
    else
      let dword_stride := dec.getStrideElements buffer 4
      let (g, addr) := emitBufferAddress g inst.binfo dword_stride (inst.arg 1)
      some (setArg g idx 1 addr, s)

/-- The three producer shapes the image-handle search stops at. -/
def isProducerOpcode (op : Opcode) : Bool :=
  decide (op = .CompositeConstructU32x2) || decide (op = .ReadConst) ||
  decide (op = .GetUserData)

/-- The instruction-reference operands of `inst` (the operands whose
`TryInstRecursive()` is non-null), in operand order. -/
def refArgs (inst : Inst) : List Nat :=
  inst.args.filterMap (fun a => match a with | .ref i => some i | _ => none)

/-- The backward BFS of `PatchImageInstruction` over the operand graph,
exactly as the C++ performs it — each popped non-producer node pushes all
of its instruction operands to the back of the queue, with no visited
set.  `some (some n)` = producer found at node `n`; `some none` = the
queue emptied and the trailing `ASSERT(pred(...))` failed; `none` = the
loop is still running when the fuel runs out. -/
def producerSearch (g : Arena) : Nat → List Nat → Option (Option Nat)
  | _, [] => some none
  | 0, _ :: _ => none
  | fuel + 1, n :: rest =>
    let i := g.getD n default
    if isProducerOpcode i.opcode then some (some n)
    else producerSearch g fuel (rest ++ refArgs i)

/-- `s32(value << 24) >> 24` applied to a u32 `value`: two's-complement
sign extension of the low 8 bits (the `sign_ext` lambda of the image
patcher). -/
def signExt8 (v : Nat) : Int :=
  let b := v % 256
  if b < 128 then (b : Int) else (b : Int) - 256

/-- `BitField<0, 6, u32>` of the texel-offset word.  The unsigned
underlying type makes `Value()` extract the raw field bits without sign
extension (the container is `common/bit_field.h`; the field positions
are also documented in the patcher's own comment). -/
def texelFieldX (raw : Nat) : Nat := raw % 64
/-- `BitField<8, 6, u32>` of the texel-offset word. -/
def texelFieldY (raw : Nat) : Nat := (raw >>> 8) % 64
/-- `BitField<16, 6, u32>` of the texel-offset word (extracted by the
C++ `union` but never used in the emitted composite). -/
def texelFieldZ (raw : Nat) : Nat := (raw >>> 16) % 64

/-- The component values the image patcher's texel-offset decode emits:
`CompositeConstruct(sign_ext(offset.x), sign_ext(offset.y))`. -/
def texelDecode (raw : Nat) : Int × Int :=
  (signExt8 (texelFieldX raw), signExt8 (texelFieldY raw))

/-- A 6-bit two's-complement field of `x`. -/
def toU6 (x : Int) : Nat := (x % 64).toNat

/-- Pack three texel offsets into the documented 6-bit fields at bit
positions [0:6), [8:14), [16:22). -/
def texelPack (x y z : Int) : Nat :=
  toU6 x ||| (toU6 y <<< 8) ||| (toU6 z <<< 16)

/-- The u32 bit pattern of a signed 32-bit value (`ir.Imm32(s32 v)`). -/
def int32ToU32 (i : Int) : Nat := (i % (4294967296 : Int)).toNat

/-- `PatchImageInstruction` on the instruction at arena index `idx`. -/
def patchImageInstruction (fuel : Nat) (env : MemEnv) (_info : Info)
    (g : Arena) (idx : Nat) (s : DescState) : Option (Arena × DescState) :=
  let inst := g.getD idx default
  match producerSearch g fuel [idx] with
  | none => none
  | some none => none
  | some (some pidx) =>
    let producer := g.getD pidx default
    let handles : Inst × Option Inst :=
      if producer.opcode = .CompositeConstructU32x2 then
        (argInst g (producer.arg 0), some (argInst g (producer.arg 1)))
      else (producer, none)
    match trackSharp g fuel handles.1 with
    | none => none
    | some tsharp =>
      let image := env.readImage tsharp.sgpr_base tsharp.dword_offset
      match addImageL s.images
          { sgpr_base := tsharp.sgpr_base, dword_offset := tsharp.dword_offset,
            ty := image.ty, nfmt := image.nfmt,
            is_storage := isImageStorageInstruction inst,
            is_depth := inst.tinfo.is_depth } with
      | none => none
      | some (ib, imgs) =>
        let s := { s with images := imgs }
        let samplerStep : Option (Nat × DescState) :=
          match handles.2 with
          | none => some (ib, s)
          | some sh =>
            let ud := tryDisableAnisoLod0 g sh
            match trackSharp g fuel ud.1 with
            | none => none
            | some ss =>
              match addSamplerL s.samplers
                  { sgpr_base := ss.sgpr_base, dword_offset := ss.dword_offset,
                    associated_image := ib % 16, disable_aniso := ud.2 } with
              | none => none
              | some (sb, smps) =>
                some (ib ||| (sb <<< 16), { s with samplers := smps })
        match samplerStep with
        | none => none
        | some (binding, s) =>
          let g := setArg g idx 0 (.imm binding)
          if inst.opcode = .ImageQueryDimensions then some (g, s)
          else
            let body := argInst g (inst.arg 1)
            let coordsStep : Option (Arena × Arg × Arg) :=
              match image.ty with
              | .Color1D => some (g, body.arg 0, body.arg 1)
              | .Color1DArray | .Color2D =>
                let e := emit g .CompositeConstruct2 [body.arg 0, body.arg 1]
                some (e.1, e.2, body.arg 2)
              | .Color2DArray | .Color2DMsaa | .Color3D =>
                let e := emit g .CompositeConstruct3 [body.arg 0, body.arg 1, body.arg 2]
                some (e.1, e.2, body.arg 3)
              | .Cube =>
                -- PatchCubeCoord: subtract the 1.5f bias from x and y.
                let ex := emit g .FPSub32 [body.arg 0, .imm 0x3FC00000]
                let ey := emit ex.1 .FPSub32 [body.arg 1, .imm 0x3FC00000]
                let ec := emit ey.1 .CompositeConstruct3 [ex.2, ey.2, body.arg 2]
                some (ec.1, ec.2, body.arg 3)
              | _ => none
            match coordsStep with
            | none => none
            | some (g, coords, trailing) =>
              let g := setArg g idx 1 coords
              let offsetStep : Option Arena :=
                if inst.tinfo.has_offset then
                  let argPos := if inst.tinfo.is_depth then 4 else 3
                  match inst.arg argPos with
                  | .imm raw =>
                    let e := emit g .CompositeConstruct2
                      [.imm (int32ToU32 (signExt8 (texelFieldX raw))),
                       .imm (int32ToU32 (signExt8 (texelFieldY raw)))]
                    some (setArg e.1 idx argPos e.2)
                  | _ => none
                else some g
              match offsetStep with
              | none => none
              | some g =>
                let g := if inst.tinfo.has_lod_clamp then
                    setArg g idx (if inst.tinfo.is_depth then 5 else 4) trailing
                  else g
                if inst.tinfo.explicit_lod then
                  if inst.opcode = .ImageFetch ∨
                     inst.opcode = .ImageSampleExplicitLod ∨
                     inst.opcode = .ImageSampleDrefExplicitLod then
                    let pos := if inst.opcode = .ImageSampleExplicitLod then 2 else 3
                    some (setArg g idx pos trailing, s)
                  else none
                else some (g, s)

/-- `IR::Program`: the instruction arena, the blocks in the order
`post_order_blocks` presents them (each block an ordered list of arena
indices), and the shared `Info` data. -/
structure Program where
  arena : Arena := []
  blocks : List (List Nat) := []
  info : Info := {}
deriving DecidableEq, Repr, Inhabited

/-- One driver step: classify the instruction and dispatch. -/
def passStep (fuel : Nat) (env : MemEnv) (dec : BufDecoder) (info : Info)
    (st : Arena × DescState) (i : Nat) : Option (Arena × DescState) :=
  let inst := st.1.getD i default
  if isBufferInstruction inst then
    patchBufferInstruction fuel env dec info st.1 i st.2
  else if isImageInstruction inst then
    patchImageInstruction fuel env info st.1 i st.2
  else some st

/-- `ResourceTrackingPass`: the untyped-load retyping loop at the top of
the C++ executes `break` as its first statement and is dead; the live
part visits every block and every instruction once, in order, and
dispatches to the patchers threading the descriptor registry. -/
def resourceTrackingPass (fuel : Nat) (env : MemEnv) (dec : BufDecoder)
    (p : Program) : Option (Arena × DescState) :=
  p.blocks.foldlM (fun st blk => blk.foldlM (passStep fuel env dec p.info) st)
    (p.arena, ({} : DescState))

/-- The pass as a function of the flattened block/instruction traversal
order (used to show the output depends only on that order). -/
def resourceTrackingPassFlat (fuel : Nat) (env : MemEnv) (dec : BufDecoder)
    (arena : Arena) (info : Info) (trav : List Nat) : Option (Arena × DescState) :=
  trav.foldlM (passStep fuel env dec info) (arena, ({} : DescState))

/-- An operand graph consisting of a single self-referential Phi-merge
node (the value of a loop-carried merge feeding itself). -/
def phiLoopArena : Arena := [{ opcode := .Phi, args := [.ref 0] }]

/-- A trivial buffer-descriptor decoder, for concrete instances. -/
def decoder0 : BufDecoder :=
  ⟨fun _ => 0, fun _ _ => 0, fun _ => 0, fun _ => 0, fun _ => false, fun _ => false⟩

/-- A trivial memory environment, for concrete instances. -/
def env0 : MemEnv := ⟨fun _ _ => {}, fun _ _ => {}⟩

/-- The concrete operand graph of the inline-constant-buffer scenario:
a buffer load whose handle is built from `program base + 0x100 + 0x20`
and the immediate control words `0xAAAA` and `0xBBBB`. -/
def inlineArena : Arena :=
  [ { opcode := .LoadBufferF32x3, args := [.ref 1, .unit] },
    { opcode := .Other, args := [.ref 2, .ref 3, .imm 0xAAAA, .imm 0xBBBB] },
    { opcode := .IAdd32, args := [.imm 0x100, .imm 0x20] },
    { opcode := .IAdd32, args := [.unit, .unit] } ]

/-- Flag bits of a buffer access with both index and offset operands
enabled and embedded byte offset 8 (a concrete instance). -/
def biBoth : BufferInstInfo :=
  { index_enable := true, offset_enable := true, inst_offset := 8 }

/-- Flag bits of a buffer access with only the index operand enabled and
embedded byte offset 8 (a concrete instance). -/
def biIdx : BufferInstInfo :=
  { index_enable := true, offset_enable := false, inst_offset := 8 }

/-- Flag bits of a buffer access with only the byte-offset operand
enabled and embedded byte offset 4 (a concrete instance). -/
def biOff : BufferInstInfo :=
  { index_enable := false, offset_enable := true, inst_offset := 4 }

/-- A concrete buffer descriptor registration (F32 load shape). -/
def bA : BufferResource :=
  { sgpr_base := 12, dword_offset := 4, stride := 16, num_records := 256,
    used_types := 1, is_storage := false }

/-- A registration with the same identity as `bA` but observed as a
store of U32 data. -/
def bB : BufferResource :=
  { sgpr_base := 12, dword_offset := 4, stride := 16, num_records := 256,
    used_types := 2, is_storage := true }

/-- A registration with a different identity than `bA`. -/
def bC : BufferResource :=
  { sgpr_base := 13, dword_offset := 4, stride := 8, num_records := 1,
    used_types := 1, is_storage := false }

/-- A registration with the same identity as `bA` but a conflicting
stride. -/
def bConflict : BufferResource :=
  { sgpr_base := 12, dword_offset := 4, stride := 32, num_records := 256 }

/-- The merged entry produced by registering `bA` then `bB`. -/
def bAB : BufferResource :=
  { sgpr_base := 12, dword_offset := 4, stride := 16, num_records := 256,
    used_types := 3, is_storage := true }

/-- A concrete 2D image registration. -/
def iA : ImageResource :=
  { sgpr_base := 4, dword_offset := 0, ty := .Color2D, nfmt := .Float }

/-- The same sharp location as `iA` read with 3D dimensionality. -/
def iB : ImageResource :=
  { sgpr_base := 4, dword_offset := 0, ty := .Color3D, nfmt := .Float }

/-- A concrete sampler registration. -/
def sA : SamplerResource :=
  { sgpr_base := 12, dword_offset := 0, associated_image := 0 }

/-- A sampler at the same location as `sA` with different non-identity
fields. -/
def sB : SamplerResource :=
  { sgpr_base := 12, dword_offset := 0, associated_image := 3,
    disable_aniso := true }

/-- A one-instruction program whose single block holds that instruction. -/
def progA : Program :=
  { arena := [{ opcode := .Phi, args := [] }], blocks := [[0], []], info := {} }

/-- The same arena and instruction traversal as `progA`, partitioned into
one block instead of two. -/
def progB : Program :=
  { arena := [{ opcode := .Phi, args := [] }], blocks := [[0]], info := {} }

section Lemmas

/-- Indexing past a prefix of an append. -/
theorem getD_append_add (g l : List α) (k : Nat) (d : α) :
    (g ++ l).getD (g.length + k) d = l.getD k d := by
  induction g with
  | nil => simp
  | cons a g ih => simpa [Nat.succ_add] using ih

/-- Arena lookup of the `k`-th freshly emitted instruction. -/
theorem lookup_append (g : Arena) (X : List Inst) (k : Nat) :
    ((g ++ X)[g.length + k]?).getD default = X.getD k default := by
  rw [← List.getD_eq_getElem?_getD, getD_append_add]

/-- `evalU32` on an immediate operand. -/
theorem evalU32_imm (g : Arena) (a1 : Arg) (iv ov dv f v : Nat) :
    evalU32 g a1 iv ov dv f (.imm v) = some (v % M32) := by
  cases f <;> simp [evalU32]

/-- `evalU32` through an emitted `IAdd32`. -/
theorem evalU32_step_iadd (g : Arena) (a1 x y : Arg) (iv ov dv f j xv yv : Nat)
    (hne : (Arg.ref j) ≠ a1)
    (h : (g[j]?).getD default = { opcode := .IAdd32, args := [x, y] })
    (hx : evalU32 g a1 iv ov dv f x = some xv)
    (hy : evalU32 g a1 iv ov dv f y = some yv) :
    evalU32 g a1 iv ov dv (f + 1) (.ref j) = some ((xv + yv) % M32) := by
  simp [evalU32, hne, h, hx, hy]

/-- `evalU32` through an emitted `IMul32`. -/
theorem evalU32_step_imul (g : Arena) (a1 x y : Arg) (iv ov dv f j xv yv : Nat)
    (hne : (Arg.ref j) ≠ a1)
    (h : (g[j]?).getD default = { opcode := .IMul32, args := [x, y] })
    (hx : evalU32 g a1 iv ov dv f x = some xv)
    (hy : evalU32 g a1 iv ov dv f y = some yv) :
    evalU32 g a1 iv ov dv (f + 1) (.ref j) = some ((xv * yv) % M32) := by
  simp [evalU32, hne, h, hx, hy]

/-- `evalU32` through an emitted `ShiftRightLogical32`. -/
theorem evalU32_step_shr (g : Arena) (a1 x y : Arg) (iv ov dv f j xv yv : Nat)
    (hne : (Arg.ref j) ≠ a1)
    (h : (g[j]?).getD default = { opcode := .ShiftRightLogical32, args := [x, y] })
    (hx : evalU32 g a1 iv ov dv f x = some xv)
    (hy : evalU32 g a1 iv ov dv f y = some yv) :
    evalU32 g a1 iv ov dv (f + 1) (.ref j) = some ((xv >>> (yv % 32)) % M32) := by
  simp [evalU32, hne, h, hx, hy]

/-- `evalU32` through the emitted extraction of the index component. -/
theorem evalU32_step_extract0 (g : Arena) (a1 : Arg) (iv ov dv f j : Nat)
    (hne : (Arg.ref j) ≠ a1)
    (h : (g[j]?).getD default =
      { opcode := .CompositeExtract, args := [a1, .imm 0] }) :
    evalU32 g a1 iv ov dv (f + 1) (.ref j) = some (iv % M32) := by
  simp [evalU32, hne, h]

/-- `evalU32` through the emitted extraction of the offset component. -/
theorem evalU32_step_extract1 (g : Arena) (a1 : Arg) (iv ov dv f j : Nat)
    (hne : (Arg.ref j) ≠ a1)
    (h : (g[j]?).getD default =
      { opcode := .CompositeExtract, args := [a1, .imm 1] }) :
    evalU32 g a1 iv ov dv (f + 1) (.ref j) = some (ov % M32) := by
  simp [evalU32, hne, h]

/-- `evalU32` on the original operand used directly. -/
theorem evalU32_direct (g : Arena) (iv ov dv f j : Nat) :
    evalU32 g (.ref j) iv ov dv (f + 1) (.ref j) = some (dv % M32) := by
  simp [evalU32]

/-- A fold of folds over `Option` equals the fold over the flattened
list: the nested block/instruction loop of the driver visits exactly the
flattened traversal. -/
theorem foldlM_flatten {β : Type} (f : β → Nat → Option β) (L : List (List Nat))
    (init : β) :
    L.foldlM (fun st blk => blk.foldlM f st) init = (L.flatten).foldlM f init := by
  induction L generalizing init with
  | nil => rfl
  | cons b L ih =>
    rw [List.flatten_cons, List.foldlM_cons, List.foldlM_append]
    cases h : b.foldlM f init <;> simp [ih]

variable {α : Type} {κ : Type} [DecidableEq κ]

theorem getD_set_self (l : List α) (i : Nat) (a d : α) (h : i < l.length) :
    (l.set i a).getD i d = a := by
  rw [List.getD_eq_getElem?_getD, List.getElem?_set_eq_of_lt a h]
  rfl

theorem getD_set_ne (l : List α) (i j : Nat) (a d : α) (h : i ≠ j) :
    (l.set i a).getD j d = l.getD j d := by
  rw [List.getD_eq_getElem?_getD, List.getElem?_set_ne h, ← List.getD_eq_getElem?_getD]

theorem set_getD_self (l : List α) (i : Nat) (d : α) (h : i < l.length) :
    l.set i (l.getD i d) = l := by
  induction l generalizing i with
  | nil => simp at h
  | cons a l ih =>
    cases i with
    | zero => rfl
    | succ i =>
      simp only [List.getD_cons_succ, List.set_cons_succ, List.cons.injEq, true_and]
      exact ih i (by simpa using h)

theorem set_append_length (l : List α) (x y : α) :
    (l ++ [x]).set l.length y = l ++ [y] := by
  induction l with
  | nil => rfl
  | cons a l ih => simp [ih]

theorem getD_irrel (l : List α) (i : Nat) (d1 d2 : α) (h : i < l.length) :
    l.getD i d1 = l.getD i d2 := by
  rw [List.getD_eq_getElem l d1 h, List.getD_eq_getElem l d2 h]

theorem firstIdx?_none_iff (p : α → Bool) (l : List α) :
    firstIdx? p l = none ↔ ∀ e ∈ l, p e = false := by
  induction l with
  | nil => simp [firstIdx?]
  | cons a l ih =>
    by_cases h : p a <;> simp [firstIdx?, h, ih]

theorem firstIdx?_some_spec (p : α → Bool) (l : List α) (i : Nat)
    (h : firstIdx? p l = some i) (d : α) :
    i < l.length ∧ p (l.getD i d) = true := by
  induction l generalizing i with
  | nil => simp [firstIdx?] at h
  | cons a l ih =>
    rw [firstIdx?] at h
    by_cases hp : p a
    · rw [if_pos hp] at h
      obtain rfl : (0 : Nat) = i := Option.some.inj h
      exact ⟨Nat.succ_pos _, hp⟩
    · rw [if_neg hp] at h
      cases hfi : firstIdx? p l with
      | none => rw [hfi] at h; simp at h
      | some i0 =>
        rw [hfi] at h
        simp only [Option.map_some, Option.map_some', Option.some.injEq] at h
        obtain ⟨hlt, hgd⟩ := ih i0 hfi
        subst h
        exact ⟨by simpa using Nat.succ_lt_succ hlt, by simpa using hgd⟩

theorem firstIdx?_map (q : κ → Bool) (f : α → κ) (l : List α) :
    firstIdx? q (l.map f) = firstIdx? (fun a => q (f a)) l := by
  induction l with
  | nil => rfl
  | cons a l ih => by_cases h : q (f a) <;> simp [firstIdx?, h, ih]

theorem firstIdx?_append_some (p : α → Bool) (l l' : List α) (i : Nat)
    (h : firstIdx? p l = some i) : firstIdx? p (l ++ l') = some i := by
  induction l generalizing i with
  | nil => simp [firstIdx?] at h
  | cons a l ih =>
    rw [firstIdx?] at h
    by_cases hp : p a
    · rw [if_pos hp] at h
      simp [firstIdx?, hp, ← h]
    · rw [if_neg hp] at h
      cases hfi : firstIdx? p l with
      | none => rw [hfi] at h; simp at h
      | some i0 =>
        rw [hfi] at h
        simp only [Option.map_some, Option.map_some', Option.some.injEq] at h
        simp [firstIdx?, hp, ih i0 hfi, ← h]

theorem firstIdx?_append_none (p : α → Bool) (l l' : List α)
    (h : firstIdx? p l = none) :
    firstIdx? p (l ++ l') = (firstIdx? p l').map (· + l.length) := by
  induction l with
  | nil => simp
  | cons a l ih =>
    rw [firstIdx?] at h
    by_cases hp : p a
    · rw [if_pos hp] at h; simp at h
    · rw [if_neg hp] at h
      have hl : firstIdx? p l = none := by
        cases hfi : firstIdx? p l with
        | none => rfl
        | some i0 => rw [hfi] at h; simp at h
      rw [List.cons_append, firstIdx?, if_neg hp, ih hl]
      cases firstIdx? p l' <;> simp
      omega

theorem keyIdx?_inj (k1 k2 : κ) (m : List κ) (i : Nat)
    (h1 : keyIdx? k1 m = some i) (h2 : keyIdx? k2 m = some i) : k1 = k2 := by
  have g1 := (firstIdx?_some_spec _ _ _ h1 k1).2
  have g2 := (firstIdx?_some_spec _ _ _ h2 k1).2
  rw [decide_eq_true_iff] at g1 g2
  rw [← g1, g2]

/-- `Descriptors::Add` when the scan finds an entry at index `i0`. -/
theorem addG_found (key : α → κ) (merge : α → α → Option α)
    (L : List α) (d : α) (i0 : Nat)
    (hf : firstIdx? (fun e => decide (key e = key d)) L = some i0) :
    addG key merge L d =
      (match merge (L.getD i0 d) d with
       | some e' => some (i0, L.set i0 e')
       | none => none) := by
  unfold addG
  rw [hf]
  rfl

/-- `Descriptors::Add` when the scan finds no entry. -/
theorem addG_notfound (key : α → κ) (merge : α → α → Option α)
    (L : List α) (d : α)
    (hf : firstIdx? (fun e => decide (key e = key d)) L = none) :
    addG key merge L d =
      (match merge d d with
       | some e' => some (L.length, (L ++ [d]).set L.length e')
       | none => none) := by
  have hgd : (L ++ [d]).getD L.length d = d := by
    simpa using getD_append_add L [d] 0 d
  unfold addG
  rw [hf]
  dsimp only [Option.getD]
  rw [hgd]
  rfl

/-- `Descriptors::Add`, key-level specification: how one `Add` call
transforms the list of identity keys and which index it returns. -/
theorem addG_key_spec (key : α → κ) (merge : α → α → Option α)
    (hmk : ∀ e d x, merge e d = some x → key x = key e)
    (L : List α) (d : α) (i : Nat) (L' : List α)
    (h : addG key merge L d = some (i, L')) :
    (L'.map key = L.map key ∨ L'.map key = L.map key ++ [key d]) ∧
    keyIdx? (key d) (L'.map key) = some i := by
  cases hf : firstIdx? (fun e => decide (key e = key d)) L with
  | some i0 =>
    rw [addG_found key merge L d i0 hf] at h
    cases hm : merge (L.getD i0 d) d with
    | none => rw [hm] at h; simp at h
    | some e' =>
      rw [hm] at h
      simp only [Option.some.injEq, Prod.mk.injEq] at h
      obtain ⟨rfl, rfl⟩ := h
      have hke' : key e' = key (L.getD i0 d) := hmk _ _ _ hm
      have hspec := firstIdx?_some_spec _ _ _ hf d
      have hkey0 : key (L.getD i0 d) = key d := by
        have := hspec.2
        rwa [decide_eq_true_iff] at this
      have hlt := hspec.1
      have hmapset : (L.set i0 e').map key = L.map key := by
        rw [List.map_set, hke', ← List.getD_map L d key,
          set_getD_self _ _ _ (by simpa using hlt)]
      refine ⟨Or.inl hmapset, ?_⟩
      rw [hmapset]
      unfold keyIdx?
      rw [firstIdx?_map]
      exact hf
  | none =>
    rw [addG_notfound key merge L d hf] at h
    cases hm : merge d d with
    | none => rw [hm] at h; simp at h
    | some e' =>
      rw [hm] at h
      simp only [Option.some.injEq, Prod.mk.injEq] at h
      obtain ⟨rfl, rfl⟩ := h
      have hke' : key e' = key d := hmk _ _ _ hm
      have hL' : (L ++ [d]).set L.length e' = L ++ [e'] := set_append_length L d e'
      rw [hL', List.map_append, List.map_singleton, hke']
      refine ⟨Or.inr rfl, ?_⟩
      unfold keyIdx?
      have hpre : firstIdx? (fun x => decide (x = key d)) (L.map key) = none := by
        rw [firstIdx?_map]
        exact hf
      rw [firstIdx?_append_none _ _ _ hpre]
      simp [firstIdx?]

/-- A run of `Add` calls, key-level specification: the key list only
grows by appending, and each call's returned index is the first index of
its key in the final key list. -/
theorem runAddsG_key_spec (key : α → κ) (merge : α → α → Option α)
    (hmk : ∀ e d x, merge e d = some x → key x = key e) (dflt : α) :
    ∀ (ds L : List α) (is : List Nat) (L2 : List α),
      runAddsG key merge L ds = some (is, L2) →
      (∃ ext, L2.map key = L.map key ++ ext) ∧
      ∀ j, j < ds.length →
        keyIdx? (key (ds.getD j dflt)) (L2.map key) = some (is.getD j 0) := by
  intro ds
  induction ds with
  | nil =>
    intro L is L2 h
    unfold runAddsG at h
    simp only [Option.some.injEq, Prod.mk.injEq] at h
    obtain ⟨rfl, rfl⟩ := h
    exact ⟨⟨[], by simp⟩, fun j hj => by simp at hj⟩
  | cons d ds ih =>
    intro L is L2 h
    unfold runAddsG at h
    cases ha : addG key merge L d with
    | none => rw [ha] at h; simp at h
    | some r =>
      obtain ⟨i, L1⟩ := r
      rw [ha] at h
      simp only [Option.bind] at h
      cases hr : runAddsG key merge L1 ds with
      | none => rw [hr] at h; simp at h
      | some r2 =>
        obtain ⟨is2, L3⟩ := r2
        rw [hr] at h
        simp only [Option.some.injEq, Prod.mk.injEq] at h
        obtain ⟨rfl, rfl⟩ := h
        obtain ⟨hevol, hidx⟩ := addG_key_spec key merge hmk L d i L1 ha
        obtain ⟨⟨ext, hext⟩, hrest⟩ := ih L1 is2 L3 hr
        constructor
        · cases hevol with
          | inl he => exact ⟨ext, by rw [hext, he]⟩
          | inr he => exact ⟨[key d] ++ ext, by rw [hext, he, List.append_assoc]⟩
        · intro j hj
          cases j with
          | zero =>
            have hstable : keyIdx? (key d) (L3.map key) = some i := by
              unfold keyIdx? at hidx ⊢
              rw [hext]
              exact firstIdx?_append_some _ _ _ _ hidx
            simpa using hstable
          | succ j =>
            have := hrest j (by simpa using hj)
            simpa using this

/-- Two `Add` calls of one run return the same index iff their identity
keys agree. -/
theorem run_dedup_iff (key : α → κ) (merge : α → α → Option α)
    (hmk : ∀ e d x, merge e d = some x → key x = key e) (dflt : α)
    (ds : List α) (is : List Nat) (L2 : List α)
    (h : runAddsG key merge [] ds = some (is, L2)) (j k : Nat)
    (hj : j < ds.length) (hk : k < ds.length) :
    is.getD j 0 = is.getD k 0 ↔ key (ds.getD j dflt) = key (ds.getD k dflt) := by
  obtain ⟨-, hidx⟩ := runAddsG_key_spec key merge hmk dflt ds [] is L2 h
  have hj2 := hidx j hj
  have hk2 := hidx k hk
  constructor
  · intro he
    rw [he] at hj2
    exact keyIdx?_inj _ _ _ _ hj2 hk2
  · intro he
    rw [he] at hj2
    exact Option.some.inj (hj2.symm.trans hk2)

theorem bufMerge_key (e d x : BufferResource) (h : bufMerge e d = some x) :
    bufKey x = bufKey e := by
  unfold bufMerge at h
  split_ifs at h
  obtain rfl := Option.some.inj h
  rfl

theorem trivialMerge_key (key : α → κ) (e d x : α)
    (h : (some e : Option α) = some x) : key x = key e := by
  rw [← Option.some.inj h]

theorem nodup_getD_inj (m : List κ) (hnod : m.Nodup) (i j : Nat) (d : κ)
    (hi : i < m.length) (hj : j < m.length) (h : m.getD i d = m.getD j d) :
    i = j := by
  rw [List.getD_eq_get m d hi, List.getD_eq_get m d hj] at h
  have hinj := List.nodup_iff_injective_get.mp hnod h
  simpa using congrArg Fin.val hinj

theorem bufMerge_fields (e d x : BufferResource) (h : bufMerge e d = some x) :
    x.is_storage = (e.is_storage || d.is_storage) ∧
    x.used_types = e.used_types ||| d.used_types := by
  unfold bufMerge at h
  split_ifs at h
  obtain rfl := Option.some.inj h
  exact ⟨rfl, rfl⟩

theorem bufMatched_append_hit (kk : Nat × Nat × Buffer)
    (done : List BufferResource) (d : BufferResource) (h : bufKey d = kk) :
    bufMatched kk (done ++ [d]) = bufMatched kk done ++ [d] := by
  unfold bufMatched
  rw [List.filter_append]
  simp [h]

theorem bufMatched_append_miss (kk : Nat × Nat × Buffer)
    (done : List BufferResource) (d : BufferResource) (h : bufKey d ≠ kk) :
    bufMatched kk (done ++ [d]) = bufMatched kk done := by
  unfold bufMatched
  rw [List.filter_append]
  simp [h]

/-- One buffer `Add` call preserves the widening invariant. -/
theorem InvB_step (done L : List BufferResource) (d : BufferResource)
    (i : Nat) (L2 : List BufferResource)
    (hinv : InvB done L) (h : addBufferL L d = some (i, L2)) :
    InvB (done ++ [d]) L2 := by
  obtain ⟨hnod, hmem, hchar⟩ := hinv
  unfold addBufferL at h
  cases hf : firstIdx? (fun e => decide (bufKey e = bufKey d)) L with
  | some i0 =>
    rw [addG_found bufKey bufMerge L d i0 hf] at h
    have hspec := firstIdx?_some_spec _ _ _ hf default
    have hlt := hspec.1
    have hkey0 : bufKey (L.getD i0 default) = bufKey d := by
      have := hspec.2
      rwa [decide_eq_true_iff] at this
    rw [getD_irrel L i0 d default hlt] at h
    cases hm : bufMerge (L.getD i0 default) d with
    | none => rw [hm] at h; simp at h
    | some e2 =>
      rw [hm] at h
      simp only [Option.some.injEq, Prod.mk.injEq] at h
      obtain ⟨rfl, rfl⟩ := h
      have hkeye2 : bufKey e2 = bufKey (L.getD i0 default) :=
        bufMerge_key (L.getD i0 default) d e2 hm
      have hfields := bufMerge_fields (L.getD i0 default) d e2 hm
      have hmap : (L.set i0 e2).map bufKey = L.map bufKey := by
        rw [List.map_set, hkeye2, ← List.getD_map L default bufKey,
          set_getD_self _ _ _ (by simpa using hlt)]
      have hkmem : bufKey d ∈ L.map bufKey := by
        have hin : (L.map bufKey).getD i0 (bufKey default) ∈ L.map bufKey := by
          rw [List.getD_eq_getElem _ _ (by simpa using hlt)]
          exact List.getElem_mem _
        rw [List.getD_map L default bufKey, hkey0] at hin
        exact hin
      refine ⟨by rw [hmap]; exact hnod, ?_, ?_⟩
      · intro d2 hd2
        rw [hmap]
        rcases List.mem_append.mp hd2 with hd2 | hd2
        · exact hmem d2 hd2
        · simp only [List.mem_singleton] at hd2
          subst hd2
          exact hkmem
      · intro j hj
        have hjlen : j < L.length := by simpa using hj
        by_cases hji : j = i0
        · subst hji
          rw [getD_set_self L j e2 default hjlen]
          have hfil : bufMatched (bufKey e2) (done ++ [d]) =
              bufMatched (bufKey (L.getD j default)) done ++ [d] := by
            rw [hkeye2]
            exact bufMatched_append_hit _ done d hkey0.symm
          obtain ⟨hc1, hc2⟩ := hchar j hjlen
          constructor
          · rw [hfil, List.any_append, hfields.1, hc1]
            simp
          · rw [hfil, List.foldl_append, hfields.2, hc2]
            rfl
        · rw [getD_set_ne L i0 j e2 default (fun he => hji he.symm)]
          have hkj : bufKey d ≠ bufKey (L.getD j default) := by
            intro hk
            apply hji
            apply nodup_getD_inj (L.map bufKey) hnod j i0 (bufKey default)
              (by simpa using hjlen) (by simpa using hlt)
            rw [List.getD_map L default bufKey, List.getD_map L default bufKey,
              hkey0, hk]
          obtain ⟨hc1, hc2⟩ := hchar j hjlen
          rw [bufMatched_append_miss _ done d hkj]
          exact ⟨hc1, hc2⟩
  | none =>
    rw [addG_notfound bufKey bufMerge L d hf] at h
    have hall := (firstIdx?_none_iff _ _).mp hf
    cases hm : bufMerge d d with
    | none => rw [hm] at h; simp at h
    | some e2 =>
      rw [hm] at h
      simp only [Option.some.injEq, Prod.mk.injEq] at h
      obtain ⟨rfl, rfl⟩ := h
      have he2d : e2 = d := by
        unfold bufMerge at hm
        split_ifs at hm
        obtain rfl := Option.some.inj hm
        cases d
        simp [Nat.or_self]
      have hL2 : (L ++ [d]).set L.length e2 = L ++ [d] := by
        rw [set_append_length, he2d]
      rw [hL2]
      have hknotin : bufKey d ∉ L.map bufKey := by
        intro hin
        obtain ⟨x, hx, hkx⟩ := List.mem_map.mp hin
        have := hall x hx
        rw [hkx] at this
        simp at this
      refine ⟨?_, ?_, ?_⟩
      · rw [List.map_append, List.map_singleton]
        simp [List.nodup_append, hnod, hknotin]
      · intro d2 hd2
        rw [List.map_append, List.map_singleton]
        rcases List.mem_append.mp hd2 with hd2 | hd2
        · exact List.mem_append_left _ (hmem d2 hd2)
        · simp only [List.mem_singleton] at hd2
          subst hd2
          exact List.mem_append_right _ (by simp)
      · intro j hj
        have hjlen : j < L.length + 1 := by simpa using hj
        by_cases hjL : j < L.length
        · rw [List.getD_append L [d] default j hjL]
          have hkj : bufKey d ≠ bufKey (L.getD j default) := by
            intro hk
            apply hknotin
            rw [hk, ← List.getD_map L default bufKey]
            rw [List.getD_eq_getElem _ _ (by simpa using hjL)]
            exact List.getElem_mem _
          obtain ⟨hc1, hc2⟩ := hchar j hjL
          rw [bufMatched_append_miss _ done d hkj]
          exact ⟨hc1, hc2⟩
        · have hjeq : j = L.length := by omega
          subst hjeq
          have hgd : (L ++ [d]).getD L.length default = d := by
            simpa using getD_append_add L [d] 0 default
          rw [hgd]
          have hdone : bufMatched (bufKey d) done = [] := by
            unfold bufMatched
            rw [List.filter_eq_nil_iff]
            intro x hx
            simp only [decide_eq_true_iff]
            intro hk
            exact hknotin (hk ▸ hmem x hx)
          have hfil : bufMatched (bufKey d) (done ++ [d]) = [d] := by
            rw [bufMatched_append_hit _ done d rfl, hdone]
            rfl
          rw [hfil]
          constructor
          · simp
          · simp

/-- A run of buffer `Add` calls preserves the widening invariant. -/
theorem InvB_run : ∀ (ds done L : List BufferResource) (is : List Nat)
    (L2 : List BufferResource), InvB done L →
    runBufferAdds L ds = some (is, L2) → InvB (done ++ ds) L2 := by
  intro ds
  induction ds with
  | nil =>
    intro done L is L2 hinv h
    unfold runBufferAdds runAddsG at h
    simp only [Option.some.injEq, Prod.mk.injEq] at h
    obtain ⟨rfl, rfl⟩ := h
    simpa using hinv
  | cons d ds ih =>
    intro done L is L2 hinv h
    unfold runBufferAdds runAddsG at h
    cases ha : addBufferL L d with
    | none =>
      unfold addBufferL at ha
      rw [ha] at h
      simp at h
    | some r =>
      obtain ⟨i, L1⟩ := r
      unfold addBufferL at ha
      rw [ha] at h
      simp only [Option.bind] at h
      cases hr : runAddsG bufKey bufMerge L1 ds with
      | none => rw [hr] at h; simp at h
      | some r2 =>
        obtain ⟨is2, L3⟩ := r2
        rw [hr] at h
        simp only [Option.some.injEq, Prod.mk.injEq] at h
        obtain ⟨rfl, rfl⟩ := h
        have hstep := InvB_step done L d i L1 hinv (by unfold addBufferL; exact ha)
        have := ih (done ++ [d]) L1 is2 L3 hstep (by unfold runBufferAdds; exact hr)
        simpa [List.append_assoc] using this

end Lemmas

section Claims

/-- C1: the resource-tracking pass is deterministic: for programs with
the same instruction arena and `Info`, the output resource lists
(binding indices) and the patched operands depend only on the flattened
block/instruction traversal order — two structurally identical copies
(and even two programs partitioning the same traversal into different
blocks) produce identical output. -/
theorem resource_pass_deterministic (fuel : Nat) (env : MemEnv)
    (dec : BufDecoder) (p q : Program)
    (ha : p.arena = q.arena) (hi : p.info = q.info)
    (ht : p.blocks.flatten = q.blocks.flatten) :
    resourceTrackingPass fuel env dec p = resourceTrackingPass fuel env dec q := by
  unfold resourceTrackingPass
  rw [foldlM_flatten, foldlM_flatten, ha, hi, ht]

/-- Witness for C1: two concrete programs with the same arena and
traversal but different block partitions give equal pass output. -/
theorem resource_pass_deterministic_witness :
    progA.arena = progB.arena ∧ progA.info = progB.info ∧
    progA.blocks.flatten = progB.blocks.flatten ∧
    resourceTrackingPass 1 env0 decoder0 progA =
      resourceTrackingPass 1 env0 decoder0 progB :=
  ⟨rfl, rfl, rfl,
    resource_pass_deterministic 1 env0 decoder0 progA progB rfl rfl rfl⟩

/-- C3: for a patched buffer access whose descriptor has element stride
`S` in dwords and whose embedded constant byte offset gives dword base
offset `B = inst_offset / 4`, the emitted address operand evaluates (in
u32 arithmetic) to `index * S + B + (offset >>> 2)` when both index and
offset operands are enabled, and to `index * S + B` when only the index
operand is enabled. -/
theorem buffer_address_arithmetic :
    (∀ (g : Arena) (bi : BufferInstInfo) (S iv ov dv r f : Nat),
      bi.index_enable = true → bi.offset_enable = true →
      r < g.length → S < M32 → bi.inst_offset < M32 → iv < M32 → ov < M32 →
      evalU32 (emitBufferAddress g bi S (.ref r)).1 (.ref r) iv ov dv (f + 6)
          (emitBufferAddress g bi S (.ref r)).2 =
        some ((iv * S + bi.inst_offset / 4 + (ov >>> 2)) % M32)) ∧
    (∀ (g : Arena) (bi : BufferInstInfo) (S dv iv ov r f : Nat),
      bi.index_enable = true → bi.offset_enable = false →
      r < g.length → S < M32 → bi.inst_offset < M32 → dv < M32 →
      evalU32 (emitBufferAddress g bi S (.ref r)).1 (.ref r) iv ov dv (f + 6)
          (emitBufferAddress g bi S (.ref r)).2 =
        some ((dv * S + bi.inst_offset / 4) % M32)) := by
  constructor
  · intro g bi S iv ov dv r f hidx hoff hr hS hBo hiv hov
    set B := bi.inst_offset / 4 with hBdef
    set X : List Inst :=
        [ { opcode := .CompositeExtract, args := [.ref r, .imm 1] },
          { opcode := .CompositeExtract, args := [.ref r, .imm 0] },
          { opcode := .IMul32, args := [.ref (g.length + 1), .imm S] },
          { opcode := .IAdd32, args := [.ref (g.length + 2), .imm B] },
          { opcode := .ShiftRightLogical32, args := [.ref g.length, .imm 2] },
          { opcode := .IAdd32, args := [.ref (g.length + 3), .ref (g.length + 4)] } ]
      with hXdef
    have hE : emitBufferAddress g bi S (.ref r) = (g ++ X, .ref (g.length + 5)) := by
      simp [emitBufferAddress, emit, hidx, hoff, hXdef]
    rw [hE]
    have hne : ∀ k, (Arg.ref (g.length + k)) ≠ .ref r := by
      intro k hk
      have := Arg.ref.inj hk
      omega
    have hne0 : (Arg.ref g.length) ≠ .ref r := by simpa using hne 0
    have hl : ∀ k, ((g ++ X)[g.length + k]?).getD default = X.getD k default :=
      fun k => lookup_append g X k
    have hl0 : ((g ++ X)[g.length]?).getD default = X.getD 0 default := by
      simpa using hl 0
    have hB : B < M32 := lt_of_le_of_lt (Nat.div_le_self _ _) hBo
    have hI1 : evalU32 (g ++ X) (.ref r) iv ov dv (f + 3) (.ref (g.length + 1)) =
        some (iv % M32) :=
      evalU32_step_extract0 (g ++ X) (.ref r) iv ov dv (f + 2) (g.length + 1)
        (hne 1) (by rw [hl 1, hXdef]; rfl)
    have hI0 : evalU32 (g ++ X) (.ref r) iv ov dv (f + 4) (.ref g.length) =
        some (ov % M32) :=
      evalU32_step_extract1 (g ++ X) (.ref r) iv ov dv (f + 3) g.length
        (hne0) (by rw [hl0, hXdef]; rfl)
    rw [Nat.mod_eq_of_lt hiv] at hI1
    rw [Nat.mod_eq_of_lt hov] at hI0
    have hI2 : evalU32 (g ++ X) (.ref r) iv ov dv (f + 4) (.ref (g.length + 2)) =
        some ((iv * (S % M32)) % M32) :=
      evalU32_step_imul (g ++ X) (.ref r) (.ref (g.length + 1)) (.imm S)
        iv ov dv (f + 3) (g.length + 2) iv (S % M32)
        (hne 2) (by rw [hl 2, hXdef]; rfl) hI1 (evalU32_imm _ _ _ _ _ _ _)
    rw [Nat.mod_eq_of_lt hS] at hI2
    have hI3 : evalU32 (g ++ X) (.ref r) iv ov dv (f + 5) (.ref (g.length + 3)) =
        some (((iv * S) % M32 + B % M32) % M32) :=
      evalU32_step_iadd (g ++ X) (.ref r) (.ref (g.length + 2)) (.imm B)
        iv ov dv (f + 4) (g.length + 3) ((iv * S) % M32) (B % M32)
        (hne 3) (by rw [hl 3, hXdef]; rfl) hI2 (evalU32_imm _ _ _ _ _ _ _)
    rw [Nat.mod_eq_of_lt hB, Nat.mod_add_mod] at hI3
    have hI4 : evalU32 (g ++ X) (.ref r) iv ov dv (f + 5) (.ref (g.length + 4)) =
        some ((ov >>> (2 % M32 % 32)) % M32) :=
      evalU32_step_shr (g ++ X) (.ref r) (.ref g.length) (.imm 2)
        iv ov dv (f + 4) (g.length + 4) ov (2 % M32)
        (hne 4) (by rw [hl 4, hXdef]; rfl) hI0 (evalU32_imm _ _ _ _ _ _ _)
    have h2 : (2 % M32 % 32) = 2 := by decide
    rw [h2] at hI4
    have hshr : ov >>> 2 < M32 := lt_of_le_of_lt (by
      rw [Nat.shiftRight_eq_div_pow]
      exact Nat.div_le_self _ _) hov
    rw [Nat.mod_eq_of_lt hshr] at hI4
    have hTop : evalU32 (g ++ X) (.ref r) iv ov dv (f + 6) (.ref (g.length + 5)) =
        some (((iv * S + B) % M32 + ov >>> 2) % M32) :=
      evalU32_step_iadd (g ++ X) (.ref r) (.ref (g.length + 3)) (.ref (g.length + 4))
        iv ov dv (f + 5) (g.length + 5) ((iv * S + B) % M32) (ov >>> 2)
        (hne 5) (by rw [hl 5, hXdef]; rfl) hI3 hI4
    rw [Nat.mod_add_mod] at hTop
    exact hTop
  · intro g bi S dv iv ov r f hidx hoff hr hS hBo hdv
    set B := bi.inst_offset / 4 with hBdef
    set X : List Inst :=
        [ { opcode := .IMul32, args := [.ref r, .imm S] },
          { opcode := .IAdd32, args := [.ref g.length, .imm B] } ]
      with hXdef
    have hE : emitBufferAddress g bi S (.ref r) = (g ++ X, .ref (g.length + 1)) := by
      simp [emitBufferAddress, emit, hidx, hoff, hXdef]
    rw [hE]
    have hne : ∀ k, (Arg.ref (g.length + k)) ≠ .ref r := by
      intro k hk
      have := Arg.ref.inj hk
      omega
    have hne0 : (Arg.ref g.length) ≠ .ref r := by simpa using hne 0
    have hl : ∀ k, ((g ++ X)[g.length + k]?).getD default = X.getD k default :=
      fun k => lookup_append g X k
    have hl0 : ((g ++ X)[g.length]?).getD default = X.getD 0 default := by
      simpa using hl 0
    have hB : B < M32 := lt_of_le_of_lt (Nat.div_le_self _ _) hBo
    have hI0 : evalU32 (g ++ X) (.ref r) iv ov dv (f + 5) (.ref g.length) =
        some ((dv % M32 * (S % M32)) % M32) :=
      evalU32_step_imul (g ++ X) (.ref r) (.ref r) (.imm S)
        iv ov dv (f + 4) g.length (dv % M32) (S % M32)
        hne0 (by rw [hl0, hXdef]; rfl)
        (evalU32_direct (g ++ X) iv ov dv (f + 3) r)
        (evalU32_imm _ _ _ _ _ _ _)
    rw [Nat.mod_eq_of_lt hdv, Nat.mod_eq_of_lt hS] at hI0
    have hTop : evalU32 (g ++ X) (.ref r) iv ov dv (f + 6) (.ref (g.length + 1)) =
        some ((dv * S % M32 + B % M32) % M32) :=
      evalU32_step_iadd (g ++ X) (.ref r) (.ref g.length) (.imm B)
        iv ov dv (f + 5) (g.length + 1) (dv * S % M32) (B % M32)
        (hne 1) (by rw [hl 1, hXdef]; rfl) hI0 (evalU32_imm _ _ _ _ _ _ _)
    rw [Nat.mod_eq_of_lt hB, Nat.mod_add_mod] at hTop
    exact hTop

/-- Witness for C3: with stride 16 (dwords), byte offset 8 (`B = 2`),
index 3 and byte offset operand 12, the emitted address evaluates to
`3*16 + 2 + 3 = 53`; with only the index operand, to `3*16 + 2 = 50`. -/
theorem buffer_address_arithmetic_witness :
    biBoth.index_enable = true ∧ biBoth.offset_enable = true ∧
    evalU32 (emitBufferAddress [default] biBoth 16 (.ref 0)).1 (.ref 0) 3 12 0 6
        (emitBufferAddress [default] biBoth 16 (.ref 0)).2 = some 53 ∧
    evalU32 (emitBufferAddress [default] biIdx 16 (.ref 0)).1 (.ref 0) 0 0 3 6
        (emitBufferAddress [default] biIdx 16 (.ref 0)).2 = some 50 := by
  refine ⟨rfl, rfl, ?_, ?_⟩
  · have h := buffer_address_arithmetic.1 [default] biBoth 16 3 12 0 0 0 rfl rfl
      (by decide) (by decide) (by decide) (by decide) (by decide)
    simpa [M32] using h
  · have h := buffer_address_arithmetic.2 [default] biIdx 16 3 0 0 0 0 rfl rfl
      (by decide) (by decide) (by decide) (by decide)
    simpa [M32] using h

/-- C4 counterexample: with only the byte-offset operand enabled
(`inst_offset = 4`, so `B = 1`, dynamic byte offset 8), the emitted
address evaluates to `1`, not to `B + (8 >>> 2) = 3` as the claim
states. -/
theorem buffer_address_offset_only_counterexample :
    (evalU32 (emitBufferAddress [] biOff 16 (.ref 0)).1 (.ref 0) 0 0 8 6
      (emitBufferAddress [] biOff 16 (.ref 0)).2) = some 1 ∧
    some 1 ≠ some (4 / 4 + 8 >>> 2) := by decide

/-- C4 (amended): for a buffer access with only the byte-offset operand
enabled, the pass emits no address arithmetic at all — the address
operand is the constant dword base offset `B = inst_offset / 4` alone,
and the dynamic offset operand is not folded in. -/
theorem buffer_address_offset_only_keeps_base (g : Arena)
    (bi : BufferInstInfo) (S : Nat) (a1 : Arg)
    (hidx : bi.index_enable = false) (hoff : bi.offset_enable = true)
    (hBo : bi.inst_offset < M32) :
    emitBufferAddress g bi S a1 = (g, .imm (bi.inst_offset / 4)) ∧
    ∀ f iv ov dv, evalU32 g a1 iv ov dv f (emitBufferAddress g bi S a1).2 =
      some (bi.inst_offset / 4) := by
  have hE : emitBufferAddress g bi S a1 = (g, .imm (bi.inst_offset / 4)) := by
    simp [emitBufferAddress, hidx, hoff]
  refine ⟨hE, fun f iv ov dv => ?_⟩
  rw [hE]
  have hB : bi.inst_offset / 4 < M32 := lt_of_le_of_lt (Nat.div_le_self _ _) hBo
  rw [evalU32_imm, Nat.mod_eq_of_lt hB]

/-- Witness for the amended C4: the concrete offset-only access emits no
instructions and its address operand evaluates to the base offset 1. -/
theorem buffer_address_offset_only_keeps_base_witness :
    emitBufferAddress [] biOff 16 (.ref 0) = ([], .imm 1) ∧
    evalU32 [] (.ref 0) 0 0 8 6 (emitBufferAddress [] biOff 16 (.ref 0)).2 =
      some 1 := by
  have h := buffer_address_offset_only_keeps_base [] biOff 16 (.ref 0)
    rfl rfl (by decide)
  exact ⟨h.1, h.2 6 0 0 8⟩

/-- C5: the texel-offset round-trip fails on the code.  Packing
`x = -1, y = 0, z = 0` into the documented 6-bit fields and applying the
image patcher's decode yields components `(63, 0)` — the 6-bit field is
zero-extended and the code's sign extension acts at width 8, where bit 7
of the extracted field is never set — instead of reproducing `-1`.
Independently, the emitted operand is a two-component composite, so the
`z` field (here 7) is dropped regardless of sign handling. -/
theorem texel_offset_roundtrip_fails :
    texelPack (-1) 0 0 = 63 ∧
    texelDecode (texelPack (-1) 0 0) = (63, 0) ∧ ((63 : Int) ≠ -1) ∧
    texelFieldZ (texelPack 0 0 7) = 7 ∧
    texelDecode (texelPack 0 0 7) = (0, 0) := by decide

/-- C8: on the concrete inline-constant-buffer idiom with
`imm0 = 0x100`, `imm1 = 0x20`, `imm2 = 0xAAAA`, `imm3 = 0xBBBB` and
program base `0x1000`, the detector synthesizes the descriptor with
address half `0x1120` and control half `0xBBBB0000AAAA`, registered at
binding 0, for every memory environment and every descriptor decoder —
the user-data table contents are never consulted. -/
theorem inline_cbuf_scenario (env : MemEnv) (dec : BufDecoder) :
    (tryHandleInlineCbuf inlineArena (inlineArena.getD 0 default)
        { pgm_base := 0x1000 } env dec {}).map Prod.fst =
      some (some (0, { lo := 0x1120, hi := 0xBBBB0000AAAA })) := by
  unfold tryHandleInlineCbuf
  simp [inlineArena, argInst, Inst.arg, Arg.isImm, Arg.immVal, addBufferL, addG,
    firstIdx?, bufMerge, bufferDataType, isBufferStore, M64]

/-- C9: the backward producer search of the image patcher and the
Phi-unwrap loop of the sharp resolver do not track visited nodes and do
not terminate on a cyclic Phi-merge structure: on a self-referential Phi
node, for every fuel bound the search has not finished. -/
theorem image_search_nonterminating_on_cycle :
    (∀ fuel, producerSearch phiLoopArena fuel [0] = none) ∧
    (∀ fuel, phiUnwrap phiLoopArena fuel (phiLoopArena.getD 0 default) = none) ∧
    (∀ fuel, trackSharp phiLoopArena fuel (phiLoopArena.getD 0 default) = none) := by
  have h1 : ∀ fuel, producerSearch phiLoopArena fuel [0] = none := by
    intro fuel
    induction fuel with
    | zero => rfl
    | succ n ih => exact ih
  have h2 : ∀ fuel, phiUnwrap phiLoopArena fuel (phiLoopArena.getD 0 default) = none := by
    intro fuel
    induction fuel with
    | zero => rfl
    | succ n ih => exact ih
  refine ⟨h1, h2, fun fuel => ?_⟩
  unfold trackSharp
  rw [h2 fuel]

/-- C10: when the handle-construction shape does not match the
inline-constant idiom, `TryHandleInlineCbuf` returns the not-applicable
result with the resource lists exactly as they were; no descriptor is
registered and no operand is rewritten (the function performs no
instruction mutation on any path). -/
theorem inline_cbuf_mismatch_pure (g : Arena) (inst : Inst) (info : Info)
    (env : MemEnv) (dec : BufDecoder) (s : DescState)
    (h : matchesInlineShape g inst = false) :
    tryHandleInlineCbuf g inst info env dec s = some (none, s) := by
  unfold tryHandleInlineCbuf
  dsimp only
  split_ifs with h1 h2 h3
  rotate_left
  · rfl
  · rfl
  · rfl
  · rw [matchesInlineShape] at h
    simp [h1.1, h1.2.1, h1.2.2, h2, h3.1, h3.2] at h

/-- Witness for C10: a concrete non-matching instruction leaves the
empty registry untouched. -/
theorem inline_cbuf_mismatch_pure_witness :
    matchesInlineShape [] default = false ∧
    tryHandleInlineCbuf [] default {} env0 decoder0 {} = some (none, {}) :=
  ⟨by decide, inline_cbuf_mismatch_pure [] default {} env0 decoder0 {} (by decide)⟩

/-- C2: within one pass run, two registrations of the same resource kind
receive the same binding index iff their identity fields agree — for
buffers `sgpr_base`, `dword_offset` and the inline descriptor value; for
images additionally the dimensionality type and the storage-vs-sampled
kind; for samplers only `sgpr_base` and `dword_offset`. -/
theorem registry_dedup_binding_iff :
    (∀ (ds : List BufferResource) (is : List Nat) (L : List BufferResource)
        (j k : Nat),
      runBufferAdds [] ds = some (is, L) → j < ds.length → k < ds.length →
      (is.getD j 0 = is.getD k 0 ↔
        bufKey (ds.getD j default) = bufKey (ds.getD k default))) ∧
    (∀ (ds : List ImageResource) (is : List Nat) (L : List ImageResource)
        (j k : Nat),
      runImageAdds [] ds = some (is, L) → j < ds.length → k < ds.length →
      (is.getD j 0 = is.getD k 0 ↔
        imgKey (ds.getD j default) = imgKey (ds.getD k default))) ∧
    (∀ (ds : List SamplerResource) (is : List Nat) (L : List SamplerResource)
        (j k : Nat),
      runSamplerAdds [] ds = some (is, L) → j < ds.length → k < ds.length →
      (is.getD j 0 = is.getD k 0 ↔
        smpKey (ds.getD j default) = smpKey (ds.getD k default))) := by
  refine ⟨?_, ?_, ?_⟩
  · intro ds is L j k h hj hk
    exact run_dedup_iff bufKey bufMerge bufMerge_key default ds is L h j k hj hk
  · intro ds is L j k h hj hk
    exact run_dedup_iff imgKey (fun e _ => some e)
      (fun e d x hx => trivialMerge_key imgKey e d x hx) default ds is L h j k hj hk
  · intro ds is L j k h hj hk
    exact run_dedup_iff smpKey (fun e _ => some e)
      (fun e d x hx => trivialMerge_key smpKey e d x hx) default ds is L h j k hj hk

/-- Witness for C2: concrete runs of each resource kind — two buffer
registrations with equal identity share binding 0; two image reads of
one location with different dimensionality get distinct bindings; two
samplers at one location share binding 0. -/
theorem registry_dedup_binding_iff_witness :
    (runBufferAdds [] [bA, bB] = some ([0, 0], [bAB])) ∧
    ((([0, 0] : List Nat).getD 0 0 = ([0, 0] : List Nat).getD 1 0) ↔
      bufKey ([bA, bB].getD 0 default) = bufKey ([bA, bB].getD 1 default)) ∧
    (runImageAdds [] [iA, iB] = some ([0, 1], [iA, iB])) ∧
    ((([0, 1] : List Nat).getD 0 0 = ([0, 1] : List Nat).getD 1 0) ↔
      imgKey ([iA, iB].getD 0 default) = imgKey ([iA, iB].getD 1 default)) ∧
    (runSamplerAdds [] [sA, sB] = some ([0, 0], [sA])) ∧
    ((([0, 0] : List Nat).getD 0 0 = ([0, 0] : List Nat).getD 1 0) ↔
      smpKey ([sA, sB].getD 0 default) = smpKey ([sA, sB].getD 1 default)) :=
  ⟨by decide,
   registry_dedup_binding_iff.1 [bA, bB] [0, 0] [bAB] 0 1
     (by decide) (by decide) (by decide),
   by decide,
   registry_dedup_binding_iff.2.1 [iA, iB] [0, 1] [iA, iB] 0 1
     (by decide) (by decide) (by decide),
   by decide,
   registry_dedup_binding_iff.2.2 [sA, sB] [0, 0] [sA] 0 1
     (by decide) (by decide) (by decide)⟩

/-- C6: registering a buffer descriptor whose identity matches an
existing entry but whose stride or record count differs from that
entry's fails the registry's `ASSERT` — the conflicting value is never
accepted or written over the existing entry. -/
theorem buffer_stride_conflict_asserts (L : List BufferResource)
    (d : BufferResource) (j : Nat)
    (hnod : (L.map bufKey).Nodup) (hj : j < L.length)
    (hid : bufKey (L.getD j default) = bufKey d)
    (hconf : (L.getD j default).stride ≠ d.stride ∨
             (L.getD j default).num_records ≠ d.num_records) :
    addBufferL L d = none := by
  cases hf : firstIdx? (fun e => decide (bufKey e = bufKey d)) L with
  | none =>
    exfalso
    have hmem : L.getD j default ∈ L := by
      rw [List.getD_eq_getElem L default hj]
      exact List.getElem_mem hj
    have := (firstIdx?_none_iff _ _).mp hf (L.getD j default) hmem
    rw [hid] at this
    simp at this
  | some i =>
    have hspec := firstIdx?_some_spec _ _ _ hf default
    have hkeyi : bufKey (L.getD i default) = bufKey d := by
      have := hspec.2
      rwa [decide_eq_true_iff] at this
    have hij : i = j := by
      apply nodup_getD_inj (L.map bufKey) hnod i j (bufKey default)
        (by simpa using hspec.1) (by simpa using hj)
      rw [List.getD_map L default bufKey, List.getD_map L default bufKey,
        hkeyi, hid]
    subst hij
    unfold addBufferL
    rw [addG_found bufKey bufMerge L d i hf]
    rw [getD_irrel L i d default hspec.1]
    unfold bufMerge
    rw [if_neg]
    intro hcc
    rcases hconf with hc | hc
    · exact hc hcc.1
    · exact hc hcc.2

/-- Witness for C6: re-registering the identity of `bA` with stride 32
instead of 16 makes the registry fail. -/
theorem buffer_stride_conflict_asserts_witness :
    ([bA].map bufKey).Nodup ∧
    bufKey ([bA].getD 0 default) = bufKey bConflict ∧
    ([bA].getD 0 default).stride ≠ bConflict.stride ∧
    addBufferL [bA] bConflict = none :=
  ⟨by decide, by decide, by decide,
   buffer_stride_conflict_asserts [bA] bConflict 0 (by decide) (by decide)
     (by decide) (Or.inl (by decide))⟩

/-- C7: after any run of buffer registrations, each entry's storage flag
is true iff some registration with that entry's identity was a store,
and each entry's `used_types` is the union (bitwise or) of the element
types observed across the registrations with its identity — independent
of visitation order, which is universally quantified. -/
theorem buffer_flag_widening_union (ds : List BufferResource) (is : List Nat)
    (L : List BufferResource) (h : runBufferAdds [] ds = some (is, L)) :
    ∀ j, j < L.length →
      (((L.getD j default).is_storage = true ↔
        ∃ d ∈ ds, bufKey d = bufKey (L.getD j default) ∧ d.is_storage = true)) ∧
      (L.getD j default).used_types =
        (ds.filter (fun d => decide (bufKey d = bufKey (L.getD j default)))).foldl
          (fun a d => a ||| d.used_types) 0 := by
  have hinv0 : InvB [] [] := by
    refine ⟨by simp, by simp, ?_⟩
    intro j hj
    simp at hj
  have hinv := InvB_run ds [] [] is L hinv0 h
  simp only [List.nil_append] at hinv
  obtain ⟨-, -, hchar⟩ := hinv
  intro j hj
  obtain ⟨hc1, hc2⟩ := hchar j hj
  refine ⟨?_, by rw [hc2]; rfl⟩
  rw [hc1]
  unfold bufMatched
  simp [List.any_eq_true, List.mem_filter, decide_eq_true_iff]

/-- Witness for C7: registering a load then a store then an unrelated
descriptor leaves entry 0 with the storage flag set and the union of the
observed type bits. -/
theorem buffer_flag_widening_union_witness :
    (runBufferAdds [] [bA, bB, bC] = some ([0, 0, 1], [bAB, bC])) ∧
    ((([bAB, bC].getD 0 default).is_storage = true ↔
      ∃ d ∈ [bA, bB, bC], bufKey d = bufKey ([bAB, bC].getD 0 default) ∧
        d.is_storage = true)) ∧
    ([bAB, bC].getD 0 default).used_types =
      ([bA, bB, bC].filter
        (fun d => decide (bufKey d = bufKey ([bAB, bC].getD 0 default)))).foldl
        (fun a d => a ||| d.used_types) 0 :=
  ⟨by decide,
   (buffer_flag_widening_union [bA, bB, bC] [0, 0, 1] [bAB, bC]
     (by decide) 0 (by decide)).1,
   (buffer_flag_widening_union [bA, bB, bC] [0, 0, 1] [bAB, bC]
     (by decide) 0 (by decide)).2⟩

end Claims

end ShadPS4
